import Mathlib

/-!
Verification of the SmartMatrix Teensy 3.x refresh driver
(`src/SmartMatrix_Impl.h`) against its natural-language specification.

The C++ driver is shallowly embedded below.  Machine integers are
modelled as `Nat` with explicit `% 65536` (uint16_t storage) and
`% 4294967296` (uint32_t arithmetic) where the C code truncates.
Code that lives in headers absent from the sources (the circular
buffer, the hardware pin constants, the `GPIO_WORD_ORDER` bit-field
layout) is modelled from the specification; such definitions carry a
doc comment starting with `Modelled from the spec:`.
-/

namespace SmartMatrix

/-! ## BCM timing table (`calculateTimerLut`, SmartMatrix_Impl.h lines 231-255) -/

/-- Raw (pre-clamp) period for bit-plane `i`:
`(MSB_BLOCK_TICKS >> (latchesPerRow - i - 1)) + LATCH_TIMER_PULSE_WIDTH_TICKS`,
stored into a `uint16_t` (line 242). -/
def timerPeriodRaw (msb l latch i : Nat) : Nat :=
  ((msb >>> (l - i - 1)) + latch) % 65536

/-- Raw (pre-clamp) on-time for bit-plane `i`:
`(((MSB_BLOCK_TICKS >> (latchesPerRow - i - 1)) * dimmingFactor) / dimmingMaximum)
 + LATCH_TIMER_PULSE_WIDTH_TICKS`, the product in 32-bit arithmetic,
stored into a `uint16_t` (line 244). -/
def timerOntimeRaw (msb l latch df dm i : Nat) : Nat :=
  ((((msb >>> (l - i - 1)) * df) % 4294967296) / dm + latch) % 65536

/-- The minimum-shift-time clamp (lines 246-250): if the period is shorter
than `MIN_BLOCK_PERIOD_PER_PIXEL_TICKS * matrixWidth`, pad both the period
and the on-time by the same `uint16_t` padding. -/
def clampPair (minTicks width p o : Nat) : Nat × Nat :=
  if p < minTicks * width then
    ((p + (minTicks * width - p) % 65536) % 65536,
     (o + (minTicks * width - p) % 65536) % 65536)
  else (p, o)

theorem clampPair_fst (minTicks width p o : Nat) :
    (clampPair minTicks width p o).1 =
      if p < minTicks * width then (p + (minTicks * width - p) % 65536) % 65536
      else p := by
  unfold clampPair; split <;> rfl

theorem clampPair_snd (minTicks width p o : Nat) :
    (clampPair minTicks width p o).2 =
      if p < minTicks * width then (o + (minTicks * width - p) % 65536) % 65536
      else o := by
  unfold clampPair; split <;> rfl

/-- `calculateTimerLut` (lines 231-255): one `(timer_period, timer_oe)` pair
per bit-plane, raw values then the clamp, smallest plane first. -/
def calculateTimerLut (msb l latch df dm minTicks width : Nat) : List (Nat × Nat) :=
  (List.range l).map fun i =>
    clampPair minTicks width (timerPeriodRaw msb l latch i)
      (timerOntimeRaw msb l latch df dm i)

/-- C2: for every bit-plane `i < latchesPerRow` the pre-clamp period is
`(baseUnit >> (latchesPerRow - i - 1)) + latchDeadTime` and the pre-clamp
on-time is `floor(sameBudget * dimmingFactor / dimmingMaximum) + latchDeadTime`
(whenever the `uint16`/`uint32` arithmetic does not wrap); in particular for
`latchesPerRow = 4`, `baseUnit = 256`, `latchDeadTime = 10`,
`dimmingFactor/dimmingMaximum = 128/255` the periods are `[42, 74, 138, 266]`,
the on-times are `[26, 42, 74, 138]`, and the periods are strictly
increasing in the plane index. -/
theorem calculateTimerLut_formula_and_example :
    (∀ msb l latch df dm i, 0 < dm → i < l →
      (msb >>> (l - i - 1)) + latch < 65536 →
      (msb >>> (l - i - 1)) * df < 4294967296 →
      ((msb >>> (l - i - 1)) * df) / dm + latch < 65536 →
      timerPeriodRaw msb l latch i = (msb >>> (l - i - 1)) + latch ∧
      timerOntimeRaw msb l latch df dm i =
        ((msb >>> (l - i - 1)) * df) / dm + latch) ∧
    calculateTimerLut 256 4 10 128 255 0 32 =
      [(42, 26), (74, 42), (138, 74), (266, 138)] ∧
    List.Pairwise (fun a b => a.1 < b.1) (calculateTimerLut 256 4 10 128 255 0 32) := by
  refine ⟨?_, by decide, by decide⟩
  intro msb l latch df dm i _ _ hp hm ho
  constructor
  · exact Nat.mod_eq_of_lt hp
  · unfold timerOntimeRaw
    rw [Nat.mod_eq_of_lt hm, Nat.mod_eq_of_lt ho]

/-- Witness for C2 at the spec's concrete instance. -/
theorem calculateTimerLut_formula_witness :
    timerPeriodRaw 256 4 10 0 = (256 >>> 3) + 10 ∧
    timerOntimeRaw 256 4 10 128 255 0 = ((256 >>> 3) * 128) / 255 + 10 :=
  calculateTimerLut_formula_and_example.1 256 4 10 128 255 0 (by decide) (by decide)
    (by decide) (by decide) (by decide)

/-- C6: when a computed period is shorter than `minTicks * width`, the clamp
pads period and on-time by the same amount, making the period exactly
`minTicks * width`; the clamp is a stable fixed point (re-running it on the
already-padded values changes nothing); and every entry of the timing table
is the clamp of the raw pair. -/
theorem clampPair_pads_and_fixed_point :
    (∀ minTicks width p o, p < minTicks * width → minTicks * width < 65536 →
      o + (minTicks * width - p) < 65536 →
      clampPair minTicks width p o =
        (minTicks * width, o + (minTicks * width - p))) ∧
    (∀ minTicks width p o,
      clampPair minTicks width (clampPair minTicks width p o).1
        (clampPair minTicks width p o).2 = clampPair minTicks width p o) ∧
    (∀ msb l latch df dm minTicks width i, i < l →
      (calculateTimerLut msb l latch df dm minTicks width)[i]? =
        some (clampPair minTicks width (timerPeriodRaw msb l latch i)
          (timerOntimeRaw msb l latch df dm i))) := by
  refine ⟨?_, ?_, ?_⟩
  · intro minTicks width p o h hlt hout
    rw [Prod.ext_iff, clampPair_fst, clampPair_snd]
    constructor <;> split_ifs <;> omega
  · intro minTicks width p o
    rw [Prod.ext_iff]
    simp only [clampPair_fst, clampPair_snd]
    constructor <;> split_ifs <;> omega
  · intro msb l latch df dm minTicks width i hi
    unfold calculateTimerLut
    rw [List.getElem?_map, List.getElem?_range hi]
    rfl

/-- Witness for C6: `minTicks * width = 64`, raw pair `(42, 26)` is padded
by `22` to `(64, 48)`. -/
theorem clampPair_pads_witness :
    clampPair 2 32 42 26 = (2 * 32, 26 + (2 * 32 - 42)) :=
  clampPair_pads_and_fixed_point.1 2 32 42 26 (by decide) (by decide) (by decide)

/-! ## Row Slot Ring

`CircularBuffer.h` is not among the sources, only its callers
(`cbInit`, `cbIsFull`, `cbGetNextWrite`, `cbWrite`, `cbRead`,
`cbGetNextRead`) are. -/

/-- Modelled from the spec: the circular buffer of `CircularBuffer.h`
(missing from the sources).  Per the data model it is a bounded ring
with distinguishable full/empty states, count-based: `count` slots are
committed but not yet released, the next write goes to
`(readIdx + count) % size`. -/
structure CircBuf where
  size : Nat
  readIdx : Nat
  count : Nat
deriving DecidableEq

/-- Modelled from the spec: the ring is full when every slot is committed. -/
def cbIsFull (cb : CircBuf) : Bool := cb.size ≤ cb.count

/-- Modelled from the spec: index of the slot the producer may fill next. -/
def cbGetNextWrite (cb : CircBuf) : Nat := (cb.readIdx + cb.count) % cb.size

/-- Modelled from the spec: commit one written slot. -/
def cbWrite (cb : CircBuf) : CircBuf := { cb with count := cb.count + 1 }

/-- Modelled from the spec: release the oldest committed slot. -/
def cbRead (cb : CircBuf) : CircBuf :=
  { cb with readIdx := (cb.readIdx + 1) % cb.size, count := cb.count - 1 }

/-- Modelled from the spec: index of the slot the consumer reads next. -/
def cbGetNextRead (cb : CircBuf) : Nat := cb.readIdx

/-! ## Refresh Scheduler (`matrixCalculations`, lines 182-229, and the
slot-filling prologue of `loadMatrixBuffers`, lines 454-473) -/

/-- One `matrixUpdateBlock` (per bit-plane entry of a row slot): the
address pair and the timer pair the DMA engine reads back. -/
structure Block where
  bits_to_set : Nat
  bits_to_clear : Nat
  timer_period : Nat
  timer_oe : Nat
deriving DecidableEq

/-- Static configuration consumed by the scheduler loop. -/
structure SchedCfg where
  rowsPerFrame : Nat
  msbBlockTicks : Nat
  latchesPerRow : Nat
  latchTicks : Nat
  dimmingMaximum : Nat
  minTicks : Nat
  width : Nat
deriving DecidableEq

/-- Mutable driver state read and written by `matrixCalculations`. -/
structure SchedState where
  currentRow : Nat
  rotationChange : Bool
  rotation : Nat
  brightnessChange : Bool
  dimmingFactor : Nat
  layerRotations : List Nat
  addressLUT : List (Nat × Nat)
  timerLUT : List (Nat × Nat)
  slots : List (List Block)
  cb : CircBuf
deriving DecidableEq

/-- Observable actions of one scheduler loop iteration (which source
functions it invokes). -/
inductive SchedEvent where
  | broadcastRotation (angle : Nat)
  | rebuildAddressTable
  | broadcastRefreshRate
  | frameRefreshCallback
  | calcTimerLut
  | encodeRow (row slot : Nat)
deriving DecidableEq

/-- The per-plane block array filled by `loadMatrixBuffers` (lines
458-473): for every `j < latchesPerRow` the block gets the one address
pair `addressLUT[currentRow]` and the timer pair `timerLUT[j]`
(`timerLUT` has `latchesPerRow` entries). -/
def fillSlotBlocks (addressLUT timerLUT : List (Nat × Nat)) (row : Nat) : List Block :=
  timerLUT.map fun tp =>
    { bits_to_set := (addressLUT.getD row (0, 0)).1
      bits_to_clear := (addressLUT.getD row (0, 0)).2
      timer_period := tp.1
      timer_oe := tp.2 }

/-- The once-per-frame block of `matrixCalculations` (lines 189-217):
when `currentRow == 0`, broadcast a pending rotation to every layer and
clear the flag, broadcast the refresh rate and frame callback to every
layer, and rebuild the timing table if brightness changed. -/
def frameBoundary (cfg : SchedCfg) (s : SchedState) : SchedState × List SchedEvent :=
  if s.currentRow = 0 then
    let sr : SchedState :=
      if s.rotationChange then
        { s with layerRotations := s.layerRotations.map fun _ => s.rotation
                 rotationChange := false }
      else s
    let evr : List SchedEvent :=
      if s.rotationChange then [SchedEvent.broadcastRotation s.rotation] else []
    let sb : SchedState :=
      if sr.brightnessChange then
        { sr with timerLUT := calculateTimerLut cfg.msbBlockTicks cfg.latchesPerRow
                    cfg.latchTicks sr.dimmingFactor cfg.dimmingMaximum cfg.minTicks cfg.width
                  brightnessChange := false }
      else sr
    let evb : List SchedEvent :=
      if sr.brightnessChange then [SchedEvent.calcTimerLut] else []
    (sb, evr ++ [SchedEvent.broadcastRefreshRate, SchedEvent.frameRefreshCallback] ++ evb)
  else (s, [])

/-- The advanced row cursor of one iteration:
`if (++currentRow >= MATRIX_ROWS_PER_FRAME) currentRow = 0` (line 223). -/
def nextRow (cfg : SchedCfg) (s : SchedState) : Nat :=
  if cfg.rowsPerFrame ≤ s.currentRow + 1 then 0 else s.currentRow + 1

/-- One iteration of the `matrixCalculations` loop body (lines 188-227):
the once-per-frame updates, then advance the row cursor, fill the slot
returned by `cbGetNextWrite` via `loadMatrixBuffers`, and commit it with
`cbWrite`. -/
def schedStep (cfg : SchedCfg) (s : SchedState) : SchedState × List SchedEvent :=
  let s1 := (frameBoundary cfg s).1
  let row2 := nextRow cfg s
  let w := cbGetNextWrite s1.cb
  ({ s1 with currentRow := row2
             slots := s1.slots.set w (fillSlotBlocks s1.addressLUT s1.timerLUT row2)
             cb := cbWrite s1.cb },
   (frameBoundary cfg s).2 ++ [SchedEvent.encodeRow row2 w])

/-- The `while (!cbIsFull(&dmaBuffer))` loop (lines 187-228), with fuel;
the fuel is an upper bound on iterations, the loop itself exits on the
ring-full test. -/
def pumpAux (cfg : SchedCfg) : Nat → SchedState → List SchedEvent → SchedState × List SchedEvent
  | 0, s, acc => (s, acc)
  | fuel + 1, s, acc =>
    if cbIsFull s.cb then (s, acc)
    else
      pumpAux cfg fuel (schedStep cfg s).1 (acc ++ (schedStep cfg s).2)

/-- `matrixCalculations` (lines 182-229): run the loop until the ring is
full.  Each iteration commits one slot, so `size - count` fuel is exact. -/
def matrixCalculations (cfg : SchedCfg) (s : SchedState) : SchedState × List SchedEvent :=
  pumpAux cfg (s.cb.size - s.cb.count) s []

/-- Slot indices written by a list of scheduler events. -/
def writtenSlots (evs : List SchedEvent) : List Nat :=
  evs.filterMap fun e =>
    match e with
    | SchedEvent.encodeRow _ w => some w
    | _ => none

theorem frameBoundary_preserved (cfg : SchedCfg) (s : SchedState) :
    (frameBoundary cfg s).1.cb = s.cb ∧
    (frameBoundary cfg s).1.slots = s.slots ∧
    (frameBoundary cfg s).1.addressLUT = s.addressLUT ∧
    (frameBoundary cfg s).1.currentRow = s.currentRow ∧
    (frameBoundary cfg s).1.dimmingFactor = s.dimmingFactor := by
  unfold frameBoundary
  by_cases h0 : s.currentRow = 0
  · cases hR : s.rotationChange <;> cases hB : s.brightnessChange <;>
      simp [h0, hR, hB]
  · simp [h0]

theorem schedStep_events (cfg : SchedCfg) (s : SchedState) :
    (schedStep cfg s).2 =
      (if s.currentRow = 0 then
        (if s.rotationChange then [SchedEvent.broadcastRotation s.rotation] else []) ++
        [SchedEvent.broadcastRefreshRate, SchedEvent.frameRefreshCallback] ++
        (if s.brightnessChange then [SchedEvent.calcTimerLut] else [])
      else []) ++ [SchedEvent.encodeRow (nextRow cfg s) (cbGetNextWrite s.cb)] := by
  unfold schedStep frameBoundary
  by_cases h0 : s.currentRow = 0 <;> cases hR : s.rotationChange <;>
    cases hB : s.brightnessChange <;> simp [h0, hR, hB]

theorem schedStep_timerLUT (cfg : SchedCfg) (s : SchedState) :
    (schedStep cfg s).1.timerLUT =
      if s.currentRow = 0 ∧ s.brightnessChange = true then
        calculateTimerLut cfg.msbBlockTicks cfg.latchesPerRow cfg.latchTicks
          s.dimmingFactor cfg.dimmingMaximum cfg.minTicks cfg.width
      else s.timerLUT := by
  show (frameBoundary cfg s).1.timerLUT = _
  unfold frameBoundary
  by_cases h0 : s.currentRow = 0 <;> cases hR : s.rotationChange <;>
    cases hB : s.brightnessChange <;> simp [h0, hR, hB]

theorem schedStep_cb (cfg : SchedCfg) (s : SchedState) :
    (schedStep cfg s).1.cb = cbWrite s.cb := by
  show cbWrite (frameBoundary cfg s).1.cb = cbWrite s.cb
  rw [(frameBoundary_preserved cfg s).1]

theorem schedStep_slots (cfg : SchedCfg) (s : SchedState) :
    (schedStep cfg s).1.slots =
      s.slots.set (cbGetNextWrite s.cb)
        (fillSlotBlocks s.addressLUT (schedStep cfg s).1.timerLUT (nextRow cfg s)) := by
  show (frameBoundary cfg s).1.slots.set (cbGetNextWrite (frameBoundary cfg s).1.cb)
      (fillSlotBlocks (frameBoundary cfg s).1.addressLUT (frameBoundary cfg s).1.timerLUT
        (nextRow cfg s)) = _
  rw [(frameBoundary_preserved cfg s).1, (frameBoundary_preserved cfg s).2.1,
    (frameBoundary_preserved cfg s).2.2.1]
  rfl

/-- C5: the timing table is rebuilt by the scheduler only at logical row 0
(a mid-frame brightness request leaves the table and the pending flag
untouched in that iteration), and a request seen at row 0 is applied
before that iteration's row is encoded: the slot filled in the same
iteration snapshots the freshly calculated table. -/
theorem brightness_applied_at_frame_boundary :
    ∀ (cfg : SchedCfg) (s : SchedState),
      (s.currentRow ≠ 0 →
        (schedStep cfg s).1.timerLUT = s.timerLUT ∧
        (schedStep cfg s).1.brightnessChange = s.brightnessChange ∧
        SchedEvent.calcTimerLut ∉ (schedStep cfg s).2) ∧
      (SchedEvent.calcTimerLut ∈ (schedStep cfg s).2 →
        s.currentRow = 0 ∧ s.brightnessChange = true) ∧
      (s.currentRow = 0 → s.brightnessChange = true →
        (schedStep cfg s).1.timerLUT =
          calculateTimerLut cfg.msbBlockTicks cfg.latchesPerRow cfg.latchTicks
            s.dimmingFactor cfg.dimmingMaximum cfg.minTicks cfg.width ∧
        (schedStep cfg s).1.slots =
          s.slots.set (cbGetNextWrite s.cb)
            (fillSlotBlocks s.addressLUT (schedStep cfg s).1.timerLUT
              (nextRow cfg s))) := by
  intro cfg s
  refine ⟨?_, ?_, ?_⟩
  · intro h0
    refine ⟨?_, ?_, ?_⟩
    · rw [schedStep_timerLUT]; simp [h0]
    · show (frameBoundary cfg s).1.brightnessChange = _
      unfold frameBoundary
      rw [if_neg h0]
    · rw [schedStep_events]
      simp [h0]
  · intro hmem
    rw [schedStep_events] at hmem
    by_cases h0 : s.currentRow = 0 <;> cases hB : s.brightnessChange <;>
      cases hR : s.rotationChange <;> simp [h0, hB, hR] at hmem ⊢
  · intro h0 hB
    exact ⟨by rw [schedStep_timerLUT]; simp [h0, hB], schedStep_slots cfg s⟩

/-- Witness for C5: a state at row 0 with a pending brightness change. -/
theorem brightness_applied_witness :
    (schedStep ⟨16, 256, 4, 10, 255, 0, 32⟩
        { currentRow := 0, rotationChange := false, rotation := 0,
          brightnessChange := true, dimmingFactor := 128, layerRotations := [],
          addressLUT := [(0, 0)], timerLUT := [], slots := [[], []],
          cb := ⟨2, 0, 0⟩ }).1.timerLUT =
      calculateTimerLut 256 4 10 128 255 0 32 :=
  ((brightness_applied_at_frame_boundary ⟨16, 256, 4, 10, 255, 0, 32⟩
    { currentRow := 0, rotationChange := false, rotation := 0,
      brightnessChange := true, dimmingFactor := 128, layerRotations := [],
      addressLUT := [(0, 0)], timerLUT := [], slots := [[], []],
      cb := ⟨2, 0, 0⟩ }).2.2 rfl rfl).1

/-- A concrete configuration and state for counterexamples/witnesses:
row 0 with a pending rotation change. -/
def cfgX : SchedCfg := ⟨16, 256, 4, 10, 255, 0, 32⟩

def stateRot : SchedState :=
  { currentRow := 0, rotationChange := true, rotation := 90,
    brightnessChange := false, dimmingFactor := 128, layerRotations := [0, 0],
    addressLUT := [(1, 2)], timerLUT := [(42, 26)], slots := [[], []],
    cb := ⟨2, 0, 0⟩ }

/-- C7 counterexample: with a rotation change pending at logical row 0,
the scheduler iteration broadcasts the rotation to the layers but does
not rebuild the Address Table — no address-table build is invoked and
the table is left exactly as it was. -/
theorem rotation_no_address_rebuild_counterexample :
    SchedEvent.broadcastRotation 90 ∈ (schedStep cfgX stateRot).2 ∧
    SchedEvent.rebuildAddressTable ∉ (schedStep cfgX stateRot).2 ∧
    (schedStep cfgX stateRot).1.addressLUT = stateRot.addressLUT := by
  refine ⟨by decide, by decide, ?_⟩
  show (frameBoundary cfgX stateRot).1.addressLUT = _
  decide

/-- C7 (amended): whenever a rotation change is pending and the scheduler
reaches logical row 0, it broadcasts the new rotation to every layer in
the chain and clears the flag; the Address Table is never rebuilt — it is
immutable after startup, rotation changes included. -/
theorem rotation_broadcast_at_frame_boundary :
    ∀ (cfg : SchedCfg) (s : SchedState),
      (schedStep cfg s).1.addressLUT = s.addressLUT ∧
      SchedEvent.rebuildAddressTable ∉ (schedStep cfg s).2 ∧
      (s.currentRow = 0 → s.rotationChange = true →
        SchedEvent.broadcastRotation s.rotation ∈ (schedStep cfg s).2 ∧
        (schedStep cfg s).1.rotationChange = false ∧
        (schedStep cfg s).1.layerRotations = s.layerRotations.map fun _ => s.rotation) := by
  intro cfg s
  refine ⟨?_, ?_, ?_⟩
  · show (frameBoundary cfg s).1.addressLUT = _
    exact (frameBoundary_preserved cfg s).2.2.1
  · rw [schedStep_events]
    by_cases h0 : s.currentRow = 0 <;> cases hR : s.rotationChange <;>
      cases hB : s.brightnessChange <;> simp [h0, hR, hB]
  · intro h0 hR
    refine ⟨?_, ?_, ?_⟩
    · rw [schedStep_events]
      simp [h0, hR]
    · show (frameBoundary cfg s).1.rotationChange = false
      unfold frameBoundary
      cases hB : s.brightnessChange <;> simp [h0, hR, hB]
    · show (frameBoundary cfg s).1.layerRotations = _
      unfold frameBoundary
      cases hB : s.brightnessChange <;> simp [h0, hR, hB]

/-- Witness for C7 (amended) at the concrete rotation-pending state. -/
theorem rotation_broadcast_witness :
    SchedEvent.broadcastRotation stateRot.rotation ∈ (schedStep cfgX stateRot).2 ∧
    (schedStep cfgX stateRot).1.rotationChange = false :=
  ⟨((rotation_broadcast_at_frame_boundary cfgX stateRot).2.2 rfl rfl).1,
   ((rotation_broadcast_at_frame_boundary cfgX stateRot).2.2 rfl rfl).2.1⟩

/-- C10: the blocks filled into a row slot all carry the identical address
pair copied from `addressLUT[row]`, the `j`-th block carries the timer pair
`timerLUT[j]` as of fill time, and a scheduler iteration touches no slot
other than the one returned by `cbGetNextWrite` — so a later timing-table
rebuild never alters an already-filled slot. -/
theorem slot_snapshot_immutable :
    ∀ (cfg : SchedCfg) (s : SchedState),
      (∀ k, k ≠ cbGetNextWrite s.cb →
        ((schedStep cfg s).1.slots)[k]? = s.slots[k]?) ∧
      (cbGetNextWrite s.cb < s.slots.length →
        ((schedStep cfg s).1.slots)[cbGetNextWrite s.cb]? =
          some (fillSlotBlocks s.addressLUT (schedStep cfg s).1.timerLUT
            (nextRow cfg s))) ∧
      (∀ aLUT tLUT r j, j < tLUT.length →
        (fillSlotBlocks aLUT tLUT r)[j]? =
          some { bits_to_set := (aLUT.getD r (0, 0)).1
                 bits_to_clear := (aLUT.getD r (0, 0)).2
                 timer_period := (tLUT.getD j (0, 0)).1
                 timer_oe := (tLUT.getD j (0, 0)).2 }) := by
  intro cfg s
  refine ⟨?_, ?_, ?_⟩
  · intro k hk
    rw [schedStep_slots]
    exact List.getElem?_set_ne (fun h => hk h.symm)
  · intro hlt
    rw [schedStep_slots]
    exact List.getElem?_set_eq_of_lt _ hlt
  · intro aLUT tLUT r j hj
    unfold fillSlotBlocks
    rw [List.getElem?_map, List.getElem?_eq_getElem hj]
    simp [List.getD_eq_getElem?_getD, List.getElem?_eq_getElem hj]

/-- Witness for C10: untouched-slot preservation at a concrete state. -/
theorem slot_snapshot_witness :
    ((schedStep cfgX stateRot).1.slots)[1]? = stateRot.slots[1]? :=
  (slot_snapshot_immutable cfgX stateRot).1 1 (by decide)

theorem writtenSlots_append (a b : List SchedEvent) :
    writtenSlots (a ++ b) = writtenSlots a ++ writtenSlots b := by
  simp [writtenSlots]

theorem writtenSlots_schedStep (cfg : SchedCfg) (s : SchedState) :
    writtenSlots (schedStep cfg s).2 = [cbGetNextWrite s.cb] := by
  rw [schedStep_events]
  unfold writtenSlots
  by_cases h0 : s.currentRow = 0 <;> cases hR : s.rotationChange <;>
    cases hB : s.brightnessChange <;> simp [h0, hR, hB]

theorem pumpAux_spec (cfg : SchedCfg) :
    ∀ (fuel : Nat) (s : SchedState) (acc : List SchedEvent),
      s.cb.count + fuel = s.cb.size →
      (pumpAux cfg fuel s acc).1.cb.size = s.cb.size ∧
      (pumpAux cfg fuel s acc).1.cb.readIdx = s.cb.readIdx ∧
      (pumpAux cfg fuel s acc).1.cb.count = s.cb.size ∧
      writtenSlots (pumpAux cfg fuel s acc).2 =
        writtenSlots acc ++
          ((List.range fuel).map fun t =>
            (s.cb.readIdx + s.cb.count + t) % s.cb.size) := by
  intro fuel
  induction fuel with
  | zero =>
    intro s acc h
    refine ⟨rfl, rfl, ?_, ?_⟩
    · show s.cb.count = s.cb.size
      omega
    · simp [pumpAux]
  | succ fuel ih =>
    intro s acc h
    have hnf : cbIsFull s.cb = false := by
      simp only [cbIsFull, decide_eq_false_iff_not]
      omega
    have hstep : pumpAux cfg (fuel + 1) s acc =
        pumpAux cfg fuel (schedStep cfg s).1 (acc ++ (schedStep cfg s).2) := by
      show (if cbIsFull s.cb = true then (s, acc)
            else pumpAux cfg fuel (schedStep cfg s).1 (acc ++ (schedStep cfg s).2)) = _
      rw [hnf]
      simp
    have hcb := schedStep_cb cfg s
    have h1 : (schedStep cfg s).1.cb.count + fuel = (schedStep cfg s).1.cb.size := by
      rw [hcb]
      show s.cb.count + 1 + fuel = s.cb.size
      omega
    obtain ⟨hsz, hrd, hcnt, htr⟩ := ih (schedStep cfg s).1 (acc ++ (schedStep cfg s).2) h1
    rw [hstep]
    refine ⟨by rw [hsz, hcb]; rfl, by rw [hrd, hcb]; rfl, by rw [hcnt, hcb]; rfl, ?_⟩
    rw [htr, writtenSlots_append, writtenSlots_schedStep, hcb]
    show writtenSlots acc ++ [cbGetNextWrite s.cb] ++
        ((List.range fuel).map fun t =>
          (s.cb.readIdx + (s.cb.count + 1) + t) % s.cb.size) = _
    rw [List.append_assoc, List.singleton_append, List.range_succ_eq_map,
      List.map_cons, List.map_map]
    have htail : ((List.range fuel).map fun t =>
        (s.cb.readIdx + (s.cb.count + 1) + t) % s.cb.size) =
        (List.range fuel).map
          ((fun t => (s.cb.readIdx + s.cb.count + t) % s.cb.size) ∘ Nat.succ) := by
      apply List.map_congr_left
      intro t _
      show (s.cb.readIdx + (s.cb.count + 1) + t) % s.cb.size =
        (s.cb.readIdx + s.cb.count + (t + 1)) % s.cb.size
      congr 1
      omega
    rw [htail]
    rfl

/-- C4: one `matrixCalculations` invocation (with no concurrent consumer)
fills the ring exactly: it returns with the ring full, commits exactly one
slot per encoded row, writes precisely the free slots starting at
`cbGetNextWrite` in ring order, and never writes any of the `count`
committed-but-unreleased slots. -/
theorem matrixCalculations_ring_discipline :
    ∀ (cfg : SchedCfg) (s : SchedState), s.cb.count ≤ s.cb.size →
      (matrixCalculations cfg s).1.cb.count = s.cb.size ∧
      writtenSlots (matrixCalculations cfg s).2 =
        ((List.range (s.cb.size - s.cb.count)).map fun t =>
          (s.cb.readIdx + s.cb.count + t) % s.cb.size) ∧
      (writtenSlots (matrixCalculations cfg s).2).length =
        (matrixCalculations cfg s).1.cb.count - s.cb.count ∧
      (∀ w ∈ writtenSlots (matrixCalculations cfg s).2,
        ∀ t, t < s.cb.count → w ≠ (s.cb.readIdx + t) % s.cb.size) := by
  intro cfg s h
  obtain ⟨hsz, hrd, hcnt, htr⟩ :=
    pumpAux_spec cfg (s.cb.size - s.cb.count) s [] (by omega)
  have hcnt2 : (matrixCalculations cfg s).1.cb.count = s.cb.size := hcnt
  have htr2 : writtenSlots (matrixCalculations cfg s).2 =
      ((List.range (s.cb.size - s.cb.count)).map fun t =>
        (s.cb.readIdx + s.cb.count + t) % s.cb.size) := by
    unfold matrixCalculations
    rw [htr]
    simp [writtenSlots]
  refine ⟨hcnt2, htr2, ?_, ?_⟩
  · rw [htr2, hcnt2]
    simp
  · intro w hw t ht
    rw [htr2] at hw
    simp only [List.mem_map, List.mem_range] at hw
    obtain ⟨a, ha, rfl⟩ := hw
    intro heq
    have hmod : s.cb.count + a ≡ t [MOD s.cb.size] := by
      refine Nat.ModEq.add_left_cancel' s.cb.readIdx ?_
      show (s.cb.readIdx + (s.cb.count + a)) % s.cb.size =
        (s.cb.readIdx + t) % s.cb.size
      rw [← Nat.add_assoc]
      exact heq
    have h3 : (s.cb.count + a) % s.cb.size = t % s.cb.size := hmod
    rw [Nat.mod_eq_of_lt (by omega), Nat.mod_eq_of_lt (by omega)] at h3
    omega

/-- Concrete state for the C4 witness: capacity 3, one committed slot. -/
def stateC4 : SchedState :=
  { currentRow := 3, rotationChange := false, rotation := 0,
    brightnessChange := false, dimmingFactor := 128, layerRotations := [],
    addressLUT := [(1, 2)], timerLUT := [(42, 26)], slots := [[], [], []],
    cb := ⟨3, 1, 1⟩ }

/-- Witness for C4: pumping the concrete state fills the ring. -/
theorem matrixCalculations_ring_witness :
    (matrixCalculations cfgX stateC4).1.cb.count = stateC4.cb.size ∧
    writtenSlots (matrixCalculations cfgX stateC4).2 =
      ((List.range (stateC4.cb.size - stateC4.cb.count)).map fun t =>
        (stateC4.cb.readIdx + stateC4.cb.count + t) % stateC4.cb.size) :=
  ⟨(matrixCalculations_ring_discipline cfgX stateC4 (by decide)).1,
   (matrixCalculations_ring_discipline cfgX stateC4 (by decide)).2.1⟩

/-! ## Address Table (`begin`, lines 263-281)

The `ADDX_PIN_0..3` constants and `ADDX_PIN_MASK` come from the
hardware header, which is not among the sources; they are modelled as
arbitrary pin bit positions `p0 p1 p2 p3`. -/

/-- `bits_to_set` for row `i` (lines 266-277): OR together `1 << ADDX_PIN_k`
for every bit `k` set in the row index (four address pins, `ADDX_PIN_3`
present). -/
def bitsToSet (p0 p1 p2 p3 i : Nat) : Nat :=
  (((if i &&& 1 ≠ 0 then 1 <<< p0 else 0) |||
    (if i &&& 2 ≠ 0 then 1 <<< p1 else 0)) |||
    (if i &&& 4 ≠ 0 then 1 <<< p2 else 0)) |||
    (if i &&& 8 ≠ 0 then 1 <<< p3 else 0)

/-- Modelled from the spec: `ADDX_PIN_MASK` of the missing hardware header,
the OR of all address-pin bits. -/
def addxPinMask (p0 p1 p2 p3 : Nat) : Nat :=
  ((1 <<< p0 ||| 1 <<< p1) ||| 1 <<< p2) ||| 1 <<< p3

/-- `bits_to_clear` for row `i` (line 280):
`(~bits_to_set) & ADDX_PIN_MASK`, the complement taken in the 16-bit
storage width of the `addresspair` fields. -/
def bitsToClear (p0 p1 p2 p3 i : Nat) : Nat :=
  (65535 ^^^ bitsToSet p0 p1 p2 p3 i) &&& addxPinMask p0 p1 p2 p3

/-- The `addressLUT` fill loop of `begin` (lines 264-281). -/
def fillAddressLUT (p0 p1 p2 p3 rows : Nat) : List (Nat × Nat) :=
  (List.range rows).map fun i =>
    (bitsToSet p0 p1 p2 p3 i, bitsToClear p0 p1 p2 p3 i)

theorem decide_and_two_pow_ne (i k : Nat) :
    decide (i &&& 2 ^ k ≠ 0) = i.testBit k := by
  rw [Nat.and_two_pow]
  cases h : i.testBit k
  · simp
  · simp [(Nat.two_pow_pos k).ne']

theorem testBit_bitsToSet (p0 p1 p2 p3 i b : Nat) :
    (bitsToSet p0 p1 p2 p3 i).testBit b =
      ((((i.testBit 0 && decide (p0 = b)) ||
        (i.testBit 1 && decide (p1 = b))) ||
        (i.testBit 2 && decide (p2 = b))) ||
        (i.testBit 3 && decide (p3 = b))) := by
  have hite : ∀ (c : Prop) [Decidable c] (x : Nat),
      (if c then x else 0).testBit b = (decide c && x.testBit b) := by
    intro c _ x
    by_cases hc : c <;> simp [hc]
  have e0 : decide (i &&& 1 ≠ 0) = i.testBit 0 := decide_and_two_pow_ne i 0
  have e1 : decide (i &&& 2 ≠ 0) = i.testBit 1 := decide_and_two_pow_ne i 1
  have e2 : decide (i &&& 4 ≠ 0) = i.testBit 2 := decide_and_two_pow_ne i 2
  have e3 : decide (i &&& 8 ≠ 0) = i.testBit 3 := decide_and_two_pow_ne i 3
  unfold bitsToSet
  rw [Nat.testBit_or, Nat.testBit_or, Nat.testBit_or, hite, hite, hite, hite,
    e0, e1, e2, e3]
  simp only [Nat.one_shiftLeft, Nat.testBit_two_pow]

theorem testBit_addxPinMask (p0 p1 p2 p3 b : Nat) :
    (addxPinMask p0 p1 p2 p3).testBit b =
      ((((decide (p0 = b) || decide (p1 = b)) || decide (p2 = b)) ||
        decide (p3 = b))) := by
  unfold addxPinMask
  simp only [Nat.testBit_or, Nat.one_shiftLeft, Nat.testBit_two_pow]

theorem testBit_bitsToClear (p0 p1 p2 p3 i b : Nat) :
    (bitsToClear p0 p1 p2 p3 i).testBit b =
      ((decide (b < 16) ^^ (bitsToSet p0 p1 p2 p3 i).testBit b) &&
        (addxPinMask p0 p1 p2 p3).testBit b) := by
  unfold bitsToClear
  have h : (65535 : Nat) = 2 ^ 16 - 1 := rfl
  rw [Nat.testBit_and, Nat.testBit_xor, h, Nat.testBit_two_pow_sub_one]

theorem bitsToSet_lt (p0 p1 p2 p3 i : Nat) (h0 : p0 < 16) (h1 : p1 < 16)
    (h2 : p2 < 16) (h3 : p3 < 16) :
    bitsToSet p0 p1 p2 p3 i < 65536 := by
  have hp : ∀ p, p < 16 → ∀ (c : Prop) [Decidable c],
      (if c then 1 <<< p else 0) < 65536 := by
    intro p hp c _
    split
    · rw [Nat.one_shiftLeft]
      calc 2 ^ p < 2 ^ 16 := Nat.pow_lt_pow_right (by omega) hp
        _ = 65536 := by norm_num
    · omega
  have h65536 : (65536 : Nat) = 2 ^ 16 := by norm_num
  unfold bitsToSet
  rw [h65536]
  refine Nat.or_lt_two_pow (Nat.or_lt_two_pow (Nat.or_lt_two_pow ?_ ?_) ?_) ?_ <;>
    rw [← h65536]
  · exact hp p0 h0 _
  · exact hp p1 h1 _
  · exact hp p2 h2 _
  · exact hp p3 h3 _

/-- C3: for every row index, the `begin()` address table entry satisfies
`bits_to_set ||| bits_to_clear = ADDX_PIN_MASK` and
`bits_to_set &&& bits_to_clear = 0`, the set bits are exactly the binary
representation of the row index mapped onto the four (distinct, 16-bit)
address pins, and the table stores exactly these pairs. -/
theorem addressLUT_row_bits :
    ∀ p0 p1 p2 p3 i, p0 < 16 → p1 < 16 → p2 < 16 → p3 < 16 →
      p0 ≠ p1 → p0 ≠ p2 → p0 ≠ p3 → p1 ≠ p2 → p1 ≠ p3 → p2 ≠ p3 → i < 16 →
      ((bitsToSet p0 p1 p2 p3 i ||| bitsToClear p0 p1 p2 p3 i) =
        addxPinMask p0 p1 p2 p3) ∧
      ((bitsToSet p0 p1 p2 p3 i &&& bitsToClear p0 p1 p2 p3 i) = 0) ∧
      (∀ b, (bitsToSet p0 p1 p2 p3 i).testBit b = true ↔
        ((p0 = b ∧ i.testBit 0 = true) ∨ (p1 = b ∧ i.testBit 1 = true) ∨
         (p2 = b ∧ i.testBit 2 = true) ∨ (p3 = b ∧ i.testBit 3 = true))) ∧
      (∀ rows, i < rows → (fillAddressLUT p0 p1 p2 p3 rows)[i]? =
        some (bitsToSet p0 p1 p2 p3 i, bitsToClear p0 p1 p2 p3 i)) := by
  intro p0 p1 p2 p3 i hp0 hp1 hp2 hp3 h01 h02 h03 h12 h13 h23 hi
  refine ⟨?_, ?_, ?_, ?_⟩
  · apply Nat.eq_of_testBit_eq
    intro b
    rw [Nat.testBit_or, testBit_bitsToClear, testBit_bitsToSet, testBit_addxPinMask]
    rcases Nat.lt_or_ge b 16 with hb | hb
    · have hd : decide (b < 16) = true := by simpa using hb
      rw [hd]
      by_cases hq0 : p0 = b <;> by_cases hq1 : p1 = b <;> by_cases hq2 : p2 = b <;>
        by_cases hq3 : p3 = b <;> simp_all
    · have hq0 : p0 ≠ b := by omega
      have hq1 : p1 ≠ b := by omega
      have hq2 : p2 ≠ b := by omega
      have hq3 : p3 ≠ b := by omega
      simp [hq0, hq1, hq2, hq3]
  · apply Nat.eq_of_testBit_eq
    intro b
    rw [Nat.testBit_and, testBit_bitsToClear, Nat.zero_testBit]
    rcases Nat.lt_or_ge b 16 with hb | hb
    · have hd : decide (b < 16) = true := by simpa using hb
      rw [hd]
      cases hs : (bitsToSet p0 p1 p2 p3 i).testBit b <;> simp
    · have hs : (bitsToSet p0 p1 p2 p3 i).testBit b = false := by
        apply Nat.testBit_lt_two_pow
        calc bitsToSet p0 p1 p2 p3 i < 65536 := bitsToSet_lt p0 p1 p2 p3 i hp0 hp1 hp2 hp3
          _ = 2 ^ 16 := by norm_num
          _ ≤ 2 ^ b := Nat.pow_le_pow_right (by omega) hb
      simp [hs]
  · intro b
    rw [testBit_bitsToSet]
    simp only [Bool.or_eq_true, Bool.and_eq_true, decide_eq_true_eq]
    tauto
  · intro rows hlt
    unfold fillAddressLUT
    rw [List.getElem?_map, List.getElem?_range hlt]
    rfl

/-- Witness for C3 at concrete pins `3, 4, 1, 2` and row `5`. -/
theorem addressLUT_row_bits_witness :
    (bitsToSet 3 4 1 2 5 ||| bitsToClear 3 4 1 2 5) = addxPinMask 3 4 1 2 ∧
    (bitsToSet 3 4 1 2 5 &&& bitsToClear 3 4 1 2 5) = 0 :=
  ⟨(addressLUT_row_bits 3 4 1 2 5 (by decide) (by decide) (by decide) (by decide)
      (by decide) (by decide) (by decide) (by decide) (by decide) (by decide)
      (by decide)).1,
   (addressLUT_row_bits 3 4 1 2 5 (by decide) (by decide) (by decide) (by decide)
      (by decide) (by decide) (by decide) (by decide) (by decide) (by decide)
      (by decide)).2.1⟩

/-! ## Pixel Encoder (`loadMatrixBuffers`, lines 486-718)

The per-pixel word packing.  The `GPIO_WORD_ORDER` bit-field layout lives
in the missing hardware header; its bit positions are modelled below.
Everything else (the truncation shifts, which planes go into which word,
the clock-set word) is from the source. -/

/-- The precision-reduction shift applied to every channel sample
(lines 496-514): `>> 4` when `latchesPerRow == 12`, `>> 8` when
`latchesPerRow == 8`, no shift otherwise. -/
def shiftAmt (l : Nat) : Nat :=
  if l = 12 then 4 else if l = 8 then 8 else 0

/-- A channel sample (a `uint16_t`) after the precision-reduction shift. -/
def truncate (l v : Nat) : Nat := (v % 65536) >>> shiftAmt l

/-- Bit `j` of a channel sample — what a one-bit bit-field assignment
`o.pXcc = value >> j` stores. -/
def chanBit (v j : Nat) : Nat := (v >>> j) % 2

/-- Modelled from the spec: the `GPIO_WORD_ORDER` bit-field layout of the
missing hardware header.  Each byte of an output word carries one
bit-plane for the pixel pair, in field order
`clk, pad, b1, r1, r2, g1, g2, b2` (bits 0-7); `r0 g0 b0` are row `n`
channels, `r1 g1 b1` the paired row `n + rowsPerFrame` channels. -/
def planeByte (r0 g0 b0 r1 g1 b1 j : Nat) : Nat :=
  4 * chanBit b0 j + 8 * chanBit r0 j + 16 * chanBit r1 j +
  32 * chanBit g0 j + 64 * chanBit g1 j + 128 * chanBit b1 j

/-- One output word `oK` (lines 525-601, 626-662, 677-713): its four bytes
carry bit-planes `4k`, `4k+1`, `4k+2`, `4k+3` of the six channel samples. -/
def packWord (r0 g0 b0 r1 g1 b1 k : Nat) : Nat :=
  planeByte r0 g0 b0 r1 g1 b1 (4 * k) +
  256 * planeByte r0 g0 b0 r1 g1 b1 (4 * k + 1) +
  65536 * planeByte r0 g0 b0 r1 g1 b1 (4 * k + 2) +
  16777216 * planeByte r0 g0 b0 r1 g1 b1 (4 * k + 3)

/-- How many data words the encoder emits per pixel: `o0, o1` always,
`o2` when `latchesPerRow >= 12`, `o3` when `latchesPerRow == 16`
(lines 525, 566, 617, 668). -/
def numWords (l : Nat) : Nat :=
  if l = 16 then 4 else if 12 ≤ l then 3 else 2

/-- The clock-set word (lines 603-607): clock bit of each plane byte. -/
def clksetWord : Nat := 16843009

/-- The data words the encoder emits for one pixel pair: each channel is
truncated, then packed plane-by-plane (the clock-augmented copies are
these words ORed with `clksetWord`). -/
def encodePixel (l r0 g0 b0 r1 g1 b1 : Nat) : List Nat :=
  (List.range (numWords l)).map fun k =>
    packWord (truncate l r0) (truncate l g0) (truncate l b0)
      (truncate l r1) (truncate l g1) (truncate l b1) k

/-- Read back, from the emitted words, the bit of bit-plane `j` at pin
position `pin`: byte `j % 4` of word `j / 4`, then the pin's bit. -/
def decodePlaneBit (words : List Nat) (pin j : Nat) : Nat :=
  (words.getD (j / 4) 0 / 256 ^ (j % 4) % 256) / 2 ^ pin % 2

/-- The channel sample wired to a given pin position of a plane byte. -/
def chanAt (r0 g0 b0 r1 g1 b1 pin : Nat) : Nat :=
  if pin = 2 then b0 else if pin = 3 then r0 else if pin = 4 then r1
  else if pin = 5 then g0 else if pin = 6 then g1 else b1

/-- MSB-first reconstruction of a channel from its per-plane bits:
plane `m - 1` (most significant) down to plane 0. -/
def reconstructChannel (words : List Nat) (pin : Nat) : Nat → Nat
  | 0 => 0
  | n + 1 => 2 ^ n * decodePlaneBit words pin n + reconstructChannel words pin n

theorem chanBit_lt (v j : Nat) : chanBit v j < 2 :=
  Nat.mod_lt _ (by norm_num)

theorem planeByte_lt (r0 g0 b0 r1 g1 b1 j : Nat) :
    planeByte r0 g0 b0 r1 g1 b1 j < 256 := by
  have h0 := chanBit_lt b0 j
  have h1 := chanBit_lt r0 j
  have h2 := chanBit_lt r1 j
  have h3 := chanBit_lt g0 j
  have h4 := chanBit_lt g1 j
  have h5 := chanBit_lt b1 j
  unfold planeByte
  omega

theorem planeByte_div_pin (r0 g0 b0 r1 g1 b1 j pin : Nat)
    (hp2 : 2 ≤ pin) (hp7 : pin ≤ 7) :
    planeByte r0 g0 b0 r1 g1 b1 j / 2 ^ pin % 2 =
      chanBit (chanAt r0 g0 b0 r1 g1 b1 pin) j := by
  have h0 := chanBit_lt b0 j
  have h1 := chanBit_lt r0 j
  have h2 := chanBit_lt r1 j
  have h3 := chanBit_lt g0 j
  have h4 := chanBit_lt g1 j
  have h5 := chanBit_lt b1 j
  unfold planeByte chanAt
  interval_cases pin <;> norm_num <;> omega

theorem packWord_div_byte (r0 g0 b0 r1 g1 b1 k p : Nat) (hp : p < 4) :
    packWord r0 g0 b0 r1 g1 b1 k / 256 ^ p % 256 =
      planeByte r0 g0 b0 r1 g1 b1 (4 * k + p) := by
  have h0 := planeByte_lt r0 g0 b0 r1 g1 b1 (4 * k)
  have h1 := planeByte_lt r0 g0 b0 r1 g1 b1 (4 * k + 1)
  have h2 := planeByte_lt r0 g0 b0 r1 g1 b1 (4 * k + 2)
  have h3 := planeByte_lt r0 g0 b0 r1 g1 b1 (4 * k + 3)
  unfold packWord
  interval_cases p <;> norm_num <;> omega

theorem getD_range_map (f : Nat → Nat) (n m : Nat) (h : m < n) :
    ((List.range n).map f).getD m 0 = f m := by
  rw [List.getD_eq_getElem?_getD, List.getElem?_map, List.getElem?_range h]
  rfl

theorem chanAt_truncate (l r0 g0 b0 r1 g1 b1 pin : Nat) :
    chanAt (truncate l r0) (truncate l g0) (truncate l b0)
      (truncate l r1) (truncate l g1) (truncate l b1) pin =
      truncate l (chanAt r0 g0 b0 r1 g1 b1 pin) := by
  unfold chanAt
  split_ifs <;> rfl

theorem decodePlaneBit_encodePixel (l r0 g0 b0 r1 g1 b1 pin j : Nat)
    (hl : l = 8 ∨ l = 12 ∨ l = 16) (hj : j < l)
    (hp2 : 2 ≤ pin) (hp7 : pin ≤ 7) :
    decodePlaneBit (encodePixel l r0 g0 b0 r1 g1 b1) pin j =
      chanBit (truncate l (chanAt r0 g0 b0 r1 g1 b1 pin)) j := by
  have hdiv : j / 4 < numWords l := by
    rcases hl with h | h | h <;> subst h <;> unfold numWords <;> norm_num <;> omega
  unfold decodePlaneBit encodePixel
  rw [getD_range_map _ _ _ hdiv]
  rw [packWord_div_byte _ _ _ _ _ _ _ _ (Nat.mod_lt j (by norm_num))]
  rw [Nat.div_add_mod j 4]
  rw [planeByte_div_pin _ _ _ _ _ _ _ _ hp2 hp7]
  rw [chanAt_truncate]

theorem reconstructChannel_eq (words : List Nat) (pin t : Nat) :
    ∀ m, (∀ j, j < m → decodePlaneBit words pin j = chanBit t j) →
      reconstructChannel words pin m = t % 2 ^ m := by
  intro m
  induction m with
  | zero =>
    intro _
    rw [Nat.pow_zero, Nat.mod_one]
    rfl
  | succ n ih =>
    intro h
    show 2 ^ n * decodePlaneBit words pin n + reconstructChannel words pin n = _
    rw [h n (by omega), ih (fun j hj => h j (by omega))]
    have h1 : chanBit t n = t / 2 ^ n % 2 := by
      unfold chanBit
      rw [Nat.shiftRight_eq_div_pow]
    rw [h1, Nat.mod_pow_succ, Nat.add_comm]

theorem truncate_lt (l v : Nat) (hl : l = 8 ∨ l = 12 ∨ l = 16) :
    truncate l v < 2 ^ l := by
  have hm : v % 65536 < 65536 := Nat.mod_lt v (by norm_num)
  unfold truncate shiftAmt
  rcases hl with h | h | h <;> subst h <;> norm_num <;> omega

/-- C1 (amended): for the bit-plane counts the encoder supports
(`latchesPerRow ∈ {8, 12, 16}`), reconstructing a channel by taking its
pin's bit from each emitted bit-plane, most significant plane first,
exactly reproduces the truncated input sample — for every channel pin
and all six channel samples. -/
theorem encodePixel_roundtrip :
    ∀ l r0 g0 b0 r1 g1 b1 pin, (l = 8 ∨ l = 12 ∨ l = 16) →
      2 ≤ pin → pin ≤ 7 →
      reconstructChannel (encodePixel l r0 g0 b0 r1 g1 b1) pin l =
        truncate l (chanAt r0 g0 b0 r1 g1 b1 pin) := by
  intro l r0 g0 b0 r1 g1 b1 pin hl hp2 hp7
  rw [reconstructChannel_eq (encodePixel l r0 g0 b0 r1 g1 b1) pin
    (truncate l (chanAt r0 g0 b0 r1 g1 b1 pin)) l
    (fun j hj => decodePlaneBit_encodePixel l r0 g0 b0 r1 g1 b1 pin j hl hj hp2 hp7)]
  exact Nat.mod_eq_of_lt (truncate_lt l _ hl)

/-- C1 counterexample: at `latchesPerRow = 4` the encoder applies no
truncation shift and only planes 0-3 are consumed, so the blue sample 16
reconstructs to 0, not to its truncated value. -/
theorem encodePixel_roundtrip_counterexample :
    reconstructChannel (encodePixel 4 0 0 16 0 0 0) 2 4 ≠ truncate 4 16 := by
  decide

/-- Witness for C1 (amended) at `latchesPerRow = 8`, blue pin. -/
theorem encodePixel_roundtrip_witness :
    reconstructChannel (encodePixel 8 1 2 3 4 5 6) 2 8 =
      truncate 8 (chanAt 1 2 3 4 5 6 2) :=
  encodePixel_roundtrip 8 1 2 3 4 5 6 2 (Or.inl rfl) (by decide) (by decide)

/-- C9 (amended): for the supported configurations whose native 16-bit
resolution exceeds `latchesPerRow` (`latchesPerRow ∈ {8, 12}`), the
encoder right-shifts every sample by exactly `16 - latchesPerRow`,
keeping precisely the top `latchesPerRow` bits, with no rounding. -/
theorem truncate_discards_low_bits :
    ∀ l v, (l = 8 ∨ l = 12) → truncate l v = (v % 65536) >>> (16 - l) := by
  intro l v hl
  rcases hl with h | h <;> subst h <;> rfl

/-- C9 counterexample: at `latchesPerRow = 4` (also below the native
16-bit resolution) no shift is applied, so the low-order bits are kept
instead of the top 4 bits. -/
theorem truncate_no_shift_counterexample :
    truncate 4 1 ≠ (1 % 65536) >>> (16 - 4) := by decide

/-- Witness for C9 (amended) at `latchesPerRow = 12`. -/
theorem truncate_discards_witness :
    truncate 12 65535 = (65535 % 65536) >>> (16 - 12) :=
  truncate_discards_low_bits 12 65535 (Or.inr rfl)

/-! ## Startup (`SmartMatrix3` constructor, lines 127-146, and `begin`,
lines 257-287) -/

/-- The constructor arguments (width, height, depth, bufferrows) plus the
brightness denominator `dimmingMaximum` (declared outside the sources). -/
structure MatrixConfig where
  width : Nat
  height : Nat
  depth : Nat
  bufferrows : Nat
  dimmingMaximum : Nat
deriving DecidableEq

/-- `latchesPerRow = colorDepthRgb / COLOR_CHANNELS_PER_PIXEL` (line 135);
the constructor performs no validation of it. -/
def initLatchesPerRow (c : MatrixConfig) : Nat := c.depth / 3

/-- The state `begin()` leaves behind: the filled tables, the initial
buffer-fill pump result, and whether the refresh timer was started
(the unconditional `FTM1_SC` write on line 451). -/
structure BeginResult where
  latchesPerRow : Nat
  addressLUT : List (Nat × Nat)
  timerLUT : List (Nat × Nat)
  sched : SchedState
  timerStarted : Bool
deriving DecidableEq

/-- `begin()` (lines 257-287 and 319-451): `cbInit`, fill `addressLUT`,
`calculateTimerLut`, the initial `matrixCalculations` pump, then DMA and
timer setup.  There is no validation and no failure path: every
configuration reaches the final timer-enable write. -/
def beginPipeline (p0 p1 p2 p3 : Nat) (c : MatrixConfig)
    (dimmingFactor msb latch minTicks : Nat) : BeginResult :=
  let l := initLatchesPerRow c
  let aLUT := fillAddressLUT p0 p1 p2 p3 (c.height / 2)
  let tLUT := calculateTimerLut msb l latch dimmingFactor c.dimmingMaximum
    minTicks c.width
  let cfg : SchedCfg := ⟨c.height / 2, msb, l, latch, c.dimmingMaximum,
    minTicks, c.width⟩
  let s0 : SchedState :=
    { currentRow := 0, rotationChange := false, rotation := 0,
      brightnessChange := false, dimmingFactor := dimmingFactor,
      layerRotations := [], addressLUT := aLUT, timerLUT := tLUT,
      slots := List.replicate c.bufferrows [], cb := ⟨c.bufferrows, 0, 0⟩ }
  { latchesPerRow := l
    addressLUT := aLUT
    timerLUT := tLUT
    sched := (matrixCalculations cfg s0).1
    timerStarted := true }

/-- C8 counterexample: a configuration with zero color depth (so zero
bit-planes), zero ring capacity and zero brightness denominator is not
rejected — `begin()` runs to completion and starts the refresh timer. -/
theorem begin_no_validation_counterexample :
    initLatchesPerRow ⟨32, 32, 0, 0, 0⟩ = 0 ∧
    (beginPipeline 3 4 1 2 ⟨32, 32, 0, 0, 0⟩ 128 256 10 0).timerStarted = true := by
  constructor
  · rfl
  · rfl

/-- C8 (amended): the constructor and `begin()` perform no configuration
validation at all: for every configuration — including `dimmingMaximum = 0`,
zero bit-planes, or zero ring capacity — `begin()` completes and starts the
refresh pipeline; nothing is detected or prevented at startup. -/
theorem begin_starts_unconditionally :
    ∀ p0 p1 p2 p3 c dimmingFactor msb latch minTicks,
      (beginPipeline p0 p1 p2 p3 c dimmingFactor msb latch minTicks).timerStarted =
        true ∧
      (beginPipeline p0 p1 p2 p3 c dimmingFactor msb latch minTicks).latchesPerRow =
        c.depth / 3 := by
  intro p0 p1 p2 p3 c dimmingFactor msb latch minTicks
  exact ⟨rfl, rfl⟩

end SmartMatrix
